import Mathlib

/-!
Verification of the file-selection and ordering engine of `pdf_merger.py`
(class `PDFMerger`).

The Python code is shallowly embedded as follows.

* Strings are Lean `String`s; Python string primitives that the engine uses
  (`str.lower`, `str.endswith`, slicing, `str.replace`, `str.split('/')`,
  `'/'.join`) are modelled over the underlying character lists, restricted to
  their ASCII behaviour, which is all the engine relies on.
* `os.path` operations (`basename`, `join`, `abspath`, `normpath`) are
  implemented from their POSIX (CPython `posixpath`) semantics.
* A Python `dict` is an insertion-ordered association list
  (`List (String × v)`); `d[k] = v` is `dictInsert`, `d.get(k)` is
  `dictLookup`.
* The filesystem is passed in explicitly: a directory listing is a list of
  entries (name plus a regular-file flag) in listing order; `os.path.exists`
  of the main directory is a boolean argument; `glob.glob` is an abstract
  pattern-matching oracle `fnMatch`, since the engine only sorts and filters
  its output.
* `datetime.now()` is an explicit clock argument.
* The PDF codec (`merge_pdf_files`, backed by PyPDF2) is an external
  capability: a boolean-valued function saying whether writing the given
  ordered file list to the given output path succeeds.  `merge_pdfs` returns,
  along with its result list, the trace of codec invocations, which stands
  for the file-writing side effects of the batch.
* Code that raises returns `Except String`; the exception message strings are
  reproduced from the source.
-/

namespace PdfMerger

/-! ## Python string primitives (ASCII model) -/

/-- ASCII decimal digit test: the character class `[0-9]` of the regex in
`natural_sort_key`, and Python `str.isdigit` on the digit runs that regex
produces. -/
def pyIsDigit (c : Char) : Bool :=
  48 ≤ c.toNat && c.toNat ≤ 57

/-- One-character lower-casing as Python `str.lower` behaves on ASCII:
`A`..`Z` map to `a`..`z`, everything else is unchanged. -/
def pyLower (c : Char) : Char :=
  if 65 ≤ c.toNat ∧ c.toNat ≤ 90 then Char.ofNat (c.toNat + 32) else c

/-- Python `str.lower` over a whole string. -/
def lowerStr (s : String) : String :=
  ⟨s.data.map pyLower⟩

/-- Python `str.endswith`: the final characters of `s` equal `suf`. -/
def pyEndsWith (s suf : String) : Bool :=
  decide (s.data.drop (s.data.length - suf.data.length) = suf.data) &&
  decide (suf.data.length ≤ s.data.length)

/-- Python slice `s[:-4]`, as used to strip a `.pdf` extension. -/
def dropLast4 (s : String) : String :=
  ⟨s.data.take (s.data.length - 4)⟩

/-! ## POSIX path model (`os.path`) -/

/-- Python `path.split('/')` on the character list: split at every `/`,
keeping empty pieces. -/
def splitSlash : List Char → List (List Char)
  | [] => [[]]
  | c :: cs =>
    if c = '/' then [] :: splitSlash cs
    else
      match splitSlash cs with
      | [] => [[c]]
      | h :: t => (c :: h) :: t

/-- Python `'/'.join(comps)` on character lists. -/
def joinSlash : List (List Char) → List Char
  | [] => []
  | [c] => c
  | c :: cs => c ++ '/' :: joinSlash cs

/-- Model of `os.path.basename`: everything after the last `/`. -/
def basename (p : String) : String :=
  ⟨(splitSlash p.data).getLastD []⟩

/-- Model of `posixpath.join` of two parts: an absolute second part wins; otherwise the
parts are glued with a `/` unless one is already there. -/
def pathJoin (a b : String) : String :=
  if b.data.take 1 = ['/'] then b
  else if a = "" ∨ (a.data.getLastD ' ') = '/' then a ++ b
  else a ++ "/" ++ b

/-- The number of leading slashes `posixpath.normpath` preserves: two exactly
leading slashes are kept (POSIX special case), any other positive number
collapses to one. -/
def initialSlashes (l : List Char) : Nat :=
  if l.take 1 = ['/'] then
    if l.take 2 = ['/', '/'] ∧ ¬ l.take 3 = ['/', '/', '/'] then 2 else 1
  else 0

/-- One iteration of the component loop of `posixpath.normpath`.  `acc` is the
`new_comps` list in reverse order: empty and `.` components are dropped; `..`
is appended when the path is relative and nothing precedes it, or when a `..`
already precedes it, and otherwise pops the previous component. -/
def normStep (slashes : Nat) (acc : List (List Char)) (comp : List Char) : List (List Char) :=
  if comp = [] ∨ comp = ['.'] then acc
  else if ¬ comp = ['.', '.'] ∨ (slashes = 0 ∧ acc = []) ∨ acc.head? = some ['.', '.'] then
    comp :: acc
  else acc.tail

/-- Model of `posixpath.normpath`: collapse repeated slashes, resolve `.` and `..`
components, preserve one or exactly-two leading slashes, and return `.` for an
empty result. -/
def normpath (p : String) : String :=
  if p = "" then "." else
  let l := p.data
  let slashes := initialSlashes l
  let comps := splitSlash l
  let newComps := (comps.foldl (normStep slashes) []).reverse
  let res := List.replicate slashes '/' ++ joinSlash newComps
  if res = [] then "." else ⟨res⟩

/-- A path is absolute when it starts with `/`. -/
def isAbs (p : String) : Bool :=
  p.data.take 1 = ['/']

/-- Model of `os.path.abspath`: join onto the current working directory, then
normalise. -/
def abspath (cwd p : String) : String :=
  normpath (pathJoin cwd p)

/-! ## Python `dict` model -/

/-- Lookup in an insertion-ordered association list (`d.get(k)`). -/
def dictLookup {α : Type} (m : List (String × α)) (k : String) : Option α :=
  (m.find? (fun e => decide (e.1 = k))).map (fun e => e.2)

/-- Update/insert (`d[k] = v`): replace the value of an existing key in place,
else append a fresh entry at the end. -/
def dictInsert {α : Type} (m : List (String × α)) (k : String) (v : α) : List (String × α) :=
  if (dictLookup m k).isSome then
    m.map (fun e => if e.1 = k then (k, v) else e)
  else
    m ++ [(k, v)]

/-! ## Configuration store (`load_configs` / `save_configs` / `set_merge_config` / `get_merge_config`)

The store is the `configs` dict of `PDFMerger`, persisted as one JSON object
mapping normalised root paths to stem lists.  The on-disk file is modelled as
`Option JVal` (`none` for a missing file). -/

/-- JSON values, as far as the configuration file shape needs them. -/
inductive JVal where
  | jstr : String → JVal
  | jarr : List JVal → JVal
  | jobj : List (String × JVal) → JVal

/-- Model of `json.dump` of the `configs` dict: an object whose values are arrays of
strings. -/
def encodeConfigs (m : List (String × List String)) : JVal :=
  .jobj (m.map (fun e => (e.1, .jarr (e.2.map .jstr))))

/-- Read one stem back out of a JSON array element. -/
def decodeStem : JVal → Option String
  | .jstr s => some s
  | _ => none

/-- Read a list of stems back out of JSON array elements. -/
def decodeStems : List JVal → Option (List String)
  | [] => some []
  | j :: js =>
    match decodeStem j, decodeStems js with
    | some s, some ss => some (s :: ss)
    | _, _ => none

/-- Read one merge order back out of a JSON object value. -/
def decodeOrder : JVal → Option (List String)
  | .jarr l => decodeStems l
  | _ => none

/-- Read the entries of the configuration object. -/
def decodeEntries : List (String × JVal) → Option (List (String × List String))
  | [] => some []
  | e :: es =>
    match decodeOrder e.2, decodeEntries es with
    | some v, some vs => some ((e.1, v) :: vs)
    | _, _ => none

/-- Read the whole configuration mapping back out of a JSON value. -/
def decodeConfigs : JVal → Option (List (String × List String))
  | .jobj l => decodeEntries l
  | _ => none

/-- Model of `load_configs`: parse the configuration file; a missing file, or contents
that are not a configuration mapping, yield the empty mapping (the
`except: return {}` path). -/
def load_configs (disk : Option JVal) : List (String × List String) :=
  match disk with
  | none => []
  | some j => (decodeConfigs j).getD []

/-- A `save_configs` call that succeeded: the whole mapping is serialised and
becomes the new file contents (a failed save raises instead and leaves no new
state behind). -/
def save_configs (configs : List (String × List String)) : Option JVal :=
  some (encodeConfigs configs)

/-- Model of `set_merge_config`: key the mapping by the resolved absolute path of the
root directory, then persist. -/
def set_merge_config (cwd : String) (configs : List (String × List String))
    (root_directory : String) (merge_order : List String) : List (String × List String) :=
  dictInsert configs (abspath cwd root_directory) merge_order

/-- Model of `get_merge_config`: look the resolved absolute path of the root directory
up in the mapping (`None` when not configured). -/
def get_merge_config (cwd : String) (configs : List (String × List String))
    (root_directory : String) : Option (List String) :=
  dictLookup configs (abspath cwd root_directory)

/-! ## Natural sort (`natural_sort_key`)

`natural_sort_key(text)` is `[convert(c) for c in re.split('([0-9]+)', text)]`
where `convert` turns an all-digit chunk into an `int` and lower-cases any
other chunk.  `re.split` with one capturing group produces a strictly
alternating chunk list: text, digit run, text, digit run, ..., text (the text
chunks may be empty, the digit runs are maximal and nonempty).  The key is
therefore represented by its alternation structure: the leading text chunk
paired with the list of (digit-run value, following text chunk) pairs.
Python's list comparison on two such keys is exactly the lexicographic order
on this representation (at equal positions the chunks always have the same
type, so no `int`/`str` comparison error can arise).  Text chunks are kept as
character lists, compared lexicographically by code point, which is exactly
how Python compares the chunk strings. -/

/-- The comparison type of natural-sort keys, ordered lexicographically. -/
abbrev NatSortKey := Lex ((List Char) × List (Lex (Nat × List Char)))

/-- Python `int` of a nonempty string of ASCII digits (arbitrary precision,
leading zeros allowed). -/
def digitsToNat (ds : List Char) : Nat :=
  ds.foldl (fun acc c => acc * 10 + (c.toNat - 48)) 0

/-- The chunks of `re.split('([0-9]+)', text)` after the leading text chunk,
already converted: the remaining characters start with a digit run, which is
paired with the text run that follows it, and so on.  The fuel is the length
of the remaining character list, which each step strictly decreases, so the
recursion never exhausts it. -/
def splitGo : Nat → List Char → List (Lex (Nat × List Char))
  | _, [] => []
  | 0, _ => []
  | fuel + 1, l =>
    let ds := l.takeWhile pyIsDigit
    let rest := l.dropWhile pyIsDigit
    let ts := rest.takeWhile (fun c => !pyIsDigit c)
    let rest2 := rest.dropWhile (fun c => !pyIsDigit c)
    toLex (digitsToNat ds, ts.map pyLower) :: splitGo fuel rest2

/-- Model of `natural_sort_key`: the structured form of
`[convert(c) for c in re.split('([0-9]+)', text)]`. -/
def natural_sort_key (s : String) : NatSortKey :=
  let ts := s.data.takeWhile (fun c => !pyIsDigit c)
  let rest := s.data.dropWhile (fun c => !pyIsDigit c)
  toLex (ts.map pyLower, splitGo rest.length rest)

/-- The ordering `sorted(..., key=natural_sort_key)` induces on strings. -/
abbrev keyLe (a b : String) : Prop :=
  natural_sort_key a ≤ natural_sort_key b

/-- The strict ordering induced by `natural_sort_key`. -/
abbrev keyLt (a b : String) : Prop :=
  natural_sort_key a < natural_sort_key b

/-! ## Output name formatter (`format_output_filename`) -/

/-- A wall-clock reading, the fields `strftime` reads. -/
structure DateTime where
  year : Nat
  month : Nat
  day : Nat
  hour : Nat
  minute : Nat
  second : Nat

/-- Zero-padding to two digits, as `strftime` does for `%m`, `%d`, `%H`,
`%M`, `%S`. -/
def pad2 (n : Nat) : String :=
  if n < 10 then "0" ++ toString n else toString n

/-- Zero-padding to four digits, as `strftime` does for `%Y`. -/
def pad4 (n : Nat) : String :=
  if n < 10 then "000" ++ toString n
  else if n < 100 then "00" ++ toString n
  else if n < 1000 then "0" ++ toString n
  else toString n

/-- Model of `now.strftime('%Y-%m-%d')`. -/
def dateStr (t : DateTime) : String :=
  pad4 t.year ++ "-" ++ pad2 t.month ++ "-" ++ pad2 t.day

/-- Model of `now.strftime('%H%M%S')`. -/
def timeStr (t : DateTime) : String :=
  pad2 t.hour ++ pad2 t.minute ++ pad2 t.second

/-- Model of `now.strftime('%Y-%m-%d_%H%M%S')`. -/
def datetimeStr (t : DateTime) : String :=
  dateStr t ++ "_" ++ timeStr t

/-- Left-to-right non-overlapping replacement of `pat` by `rep`, the
behaviour of Python `str.replace`.  The fuel starts at the text length and
each step consumes at least one text character, so it never runs out. -/
def replGo (pat rep : List Char) : Nat → List Char → List Char
  | _, [] => []
  | 0, l => l
  | fuel + 1, c :: cs =>
    if pat.isPrefixOf (c :: cs) ∧ ¬ pat = []
    then rep ++ replGo pat rep fuel (cs.drop (pat.length - 1))
    else c :: replGo pat rep fuel cs

/-- Python `str.replace` (all occurrences). -/
def strReplace (s pat rep : String) : String :=
  ⟨replGo pat.data rep.data s.data.length s.data⟩

/-- The replacement loop of `format_output_filename`: the four placeholders
are substituted one after the other, in the insertion order of the
`replacements` dict, each by literal text substitution.  `{directory}` is the
base name of the subdirectory. -/
def substPlaceholders (template directory_name : String) (now : DateTime) : String :=
  let f1 := strReplace template "{directory}" (basename directory_name)
  let f2 := strReplace f1 "{date}" (dateStr now)
  let f3 := strReplace f2 "{time}" (timeStr now)
  strReplace f3 "{datetime}" (datetimeStr now)

/-- Model of `format_output_filename`: substitute the placeholders, then append
`.pdf` unless the result already ends in `.pdf` case-insensitively. -/
def format_output_filename (template directory_name : String) (now : DateTime) : String :=
  let filename := substPlaceholders template directory_name now
  if pyEndsWith (lowerStr filename) ".pdf" then filename else filename ++ ".pdf"

/-- A fixed clock reading used by the concrete examples: 2024-01-15
10:30:00. -/
def sampleClock : DateTime :=
  ⟨2024, 1, 15, 10, 30, 0⟩

/-! ## Config-based selector (`find_merge_config_files` / `get_ordered_merge_files`) -/

/-- One entry of a directory listing: its name and whether it is a regular
file (`os.path.isfile`). -/
structure FileEntry where
  name : String
  isFile : Bool
deriving DecidableEq

/-- The `all_files` list of `find_merge_config_files`: the regular files of
the listing whose lower-cased name ends in `.pdf`, as full paths, in listing
order. -/
def allPdfFiles (dirPath : String) (entries : List FileEntry) : List String :=
  (entries.filter (fun e => e.isFile && pyEndsWith (lowerStr e.name) ".pdf")).map
    (fun e => pathJoin dirPath e.name)

/-- The inner scan of `find_merge_config_files`: the first file in
`all_files` whose base name, minus the (case-insensitive) `.pdf` extension,
equals the stem case-insensitively. -/
def matchStem (all_files : List String) (stem : String) : Option String :=
  all_files.find? (fun fp =>
    pyEndsWith (lowerStr (basename fp)) ".pdf" &&
    decide (lowerStr (dropLast4 (basename fp)) = lowerStr stem))

/-- Model of `find_merge_config_files`: resolve each required stem against the
directory listing, producing `(all_found, merge_files, missing_files)` where
`merge_files` maps each found stem to the singleton list of its resolved
path and `missing_files` collects the unresolved stems in order. -/
def find_merge_config_files (dirPath : String) (entries : List FileEntry)
    (merge_order : List String) :
    Bool × List (String × List String) × List String :=
  let all_files := allPdfFiles dirPath entries
  let acc := merge_order.foldl
    (fun acc stem =>
      match matchStem all_files stem with
      | some f => (dictInsert acc.1 stem [f], acc.2)
      | none => (acc.1, acc.2 ++ [stem]))
    ([], [])
  (acc.2.isEmpty, acc.1, acc.2)

/-- Model of `get_ordered_merge_files`: walk `merge_order` in its given order and emit
the files recorded for each stem that is present in the dict. -/
def get_ordered_merge_files (merge_files_dict : List (String × List String))
    (merge_order : List String) : List String :=
  merge_order.foldl
    (fun ordered_files stem =>
      match dictLookup merge_files_dict stem with
      | some fs => ordered_files ++ fs
      | none => ordered_files)
    []

/-! ## Pattern-based selector (`get_matching_files`) -/

/-- Stable insertion of `x` in front of the first element it is
less-or-equal to. -/
def sortInsert {α : Type} (le : α → α → Bool) (x : α) : List α → List α
  | [] => [x]
  | y :: ys => if le x y then x :: y :: ys else y :: sortInsert le x ys

/-- A stable sort by a boolean comparison, the behaviour of Python
`list.sort(key=...)` (Python's sort is stable; any stable sort agrees with
it on a total preorder such as the natural-sort key order). -/
def sortBy {α : Type} (le : α → α → Bool) : List α → List α
  | [] => []
  | x :: xs => sortInsert le x (sortBy le xs)

/-- Model of `get_matching_files`: the entries matched by the glob oracle, sorted by
`natural_sort_key` of their full paths, then filtered to regular files, as
full paths. -/
def get_matching_files (dirPath : String) (entries : List FileEntry)
    (fnMatch : String → String → Bool) (file_pattern : String) : List String :=
  let files := entries.filter (fun e => fnMatch file_pattern e.name)
  let sorted := sortBy
    (fun a b => decide (keyLe (pathJoin dirPath a.name) (pathJoin dirPath b.name))) files
  (sorted.filter (fun e => e.isFile)).map (fun e => pathJoin dirPath e.name)

/-! ## Merge orchestrator (`preview_merge` / `merge_pdfs`) -/

/-- One subdirectory of the main directory: its base name and its directory
listing. -/
structure SubDir where
  name : String
  entries : List FileEntry
deriving DecidableEq

/-- The `status_info` dict built per subdirectory: its mode and status tags
and the optional keys only some branches set. -/
structure StatusInfo where
  mode : String
  status : String
  merge_order : Option (List String)
  merge_files : Option (List (String × List String))
  missing_files : Option (List String)
deriving DecidableEq

/-- One tuple of the list `preview_merge` returns:
`(subdir, matching_files, output_path, status_info)`. -/
structure PreviewEntry where
  subdir : String
  matching_files : List String
  output_path : String
  status_info : StatusInfo
deriving DecidableEq

/-- Python truthiness of the stored merge order: `None` and the empty list
are both falsy, so `if not merge_order:` fires on either. -/
def truthy : Option (List String) → Bool
  | none => false
  | some l => !l.isEmpty

/-- The message of the exception raised when merge-configuration mode is
mandatory but no (truthy) configuration is stored. -/
def configRequiredMsg (main_directory : String) : String :=
  "Merge configuration is required but not set for: " ++ main_directory ++
    "\nSet it using --set-merge-config option"

/-- The message of the exception raised when the main directory does not
exist. -/
def dirMissingMsg (main_directory : String) : String :=
  "Directory does not exist: " ++ main_directory

/-- The inputs shared by `preview_merge` and `merge_pdfs`: the engine state
(working directory and configuration store), the glob oracle, the clock, and
the call arguments. -/
structure MergeArgs where
  cwd : String
  configs : List (String × List String)
  fnMatch : String → String → Bool
  now : DateTime
  main_directory : String
  file_pattern : String
  output_format : String
  use_merge_config : Bool

/-- The full path of a subdirectory. -/
def subdirPath (a : MergeArgs) (sd : SubDir) : String :=
  pathJoin a.main_directory sd.name

/-- The output path computed for a subdirectory: the formatted output
filename joined onto the subdirectory. -/
def outputPathFor (a : MergeArgs) (sd : SubDir) : String :=
  pathJoin (subdirPath a sd) (format_output_filename a.output_format (subdirPath a sd) a.now)

/-- The per-subdirectory selection both operations perform: in
merge-configuration mode, resolve the stored stems and use the ordered list
when all are found (an incomplete subdirectory selects nothing and is
skipped); in pattern mode, the glob selection.  The stored order is re-read
inside the loop exactly as the code does; the mandatory-configuration check
has already guaranteed it is present and nonempty. -/
def selectedFiles (a : MergeArgs) (sd : SubDir) : List String :=
  if a.use_merge_config then
    let mo := (get_merge_config a.cwd a.configs a.main_directory).getD []
    let r := find_merge_config_files (subdirPath a sd) sd.entries mo
    if r.1 then get_ordered_merge_files r.2.1 mo else []
  else
    get_matching_files (subdirPath a sd) sd.entries a.fnMatch a.file_pattern

/-- The entry `preview_merge` appends for one subdirectory, if any: the
status is `ready` (all configured stems found, or pattern files present),
`missing` (configured stems absent), or `no_files` (pattern mode, nothing
matched); an entry is appended only when files were selected or, in
merge-configuration mode, when the status is `missing`. -/
def previewEntryOpt (a : MergeArgs) (sd : SubDir) : Option PreviewEntry :=
  let pair :=
    if a.use_merge_config then
      let mo := (get_merge_config a.cwd a.configs a.main_directory).getD []
      let r := find_merge_config_files (subdirPath a sd) sd.entries mo
      if r.1 then
        (get_ordered_merge_files r.2.1 mo,
         (⟨"merge_config", "ready", some mo, some r.2.1, none⟩ : StatusInfo))
      else
        ([], (⟨"merge_config", "missing", some mo, none, some r.2.2⟩ : StatusInfo))
    else
      let mf := get_matching_files (subdirPath a sd) sd.entries a.fnMatch a.file_pattern
      (mf, (⟨"pattern", if mf.isEmpty then "no_files" else "ready",
            none, none, none⟩ : StatusInfo))
  if !pair.1.isEmpty || (a.use_merge_config && pair.2.status == "missing") then
    some ⟨subdirPath a sd, pair.1, outputPathFor a sd, pair.2⟩
  else
    none

/-- Model of `preview_merge`: validate the main directory, enforce the mandatory
configuration in merge-configuration mode, then walk the subdirectories in
listing order collecting the preview tuples.  It invokes no codec and writes
nothing. -/
def preview_merge (a : MergeArgs) (mainExists : Bool) (subdirs : List SubDir) :
    Except String (List PreviewEntry) :=
  if !mainExists then
    .error (dirMissingMsg a.main_directory)
  else if a.use_merge_config &&
      !truthy (get_merge_config a.cwd a.configs a.main_directory) then
    .error (configRequiredMsg a.main_directory)
  else
    .ok (subdirs.foldl
      (fun preview_data sd =>
        match previewEntryOpt a sd with
        | some e => preview_data ++ [e]
        | none => preview_data)
      [])

/-- The body of the subdirectory loop of `merge_pdfs`, acting on the pair of
the result list and the codec-invocation trace: subdirectories with nothing
selected are skipped; otherwise the codec is invoked once on the selected
files and output path, the path is appended to the results when it succeeds,
and a failure is caught and only noted, so the loop continues either way. -/
def mergeStep (a : MergeArgs) (codec : List String → String → Bool)
    (acc : List String × List (List String × String)) (sd : SubDir) :
    List String × List (List String × String) :=
  let matching_files := selectedFiles a sd
  if matching_files.isEmpty then acc
  else
    let output_path := outputPathFor a sd
    if codec matching_files output_path then
      (acc.1 ++ [output_path], acc.2 ++ [(matching_files, output_path)])
    else
      (acc.1, acc.2 ++ [(matching_files, output_path)])

/-- Model of `merge_pdfs`: validate the main directory, enforce the mandatory
configuration in merge-configuration mode, then run the subdirectory loop.
The returned pair is the list of successfully produced output paths and the
trace of codec invocations (the batch's file-writing side effects). -/
def merge_pdfs (a : MergeArgs) (mainExists : Bool) (subdirs : List SubDir)
    (codec : List String → String → Bool) :
    Except String (List String × List (List String × String)) :=
  if !mainExists then
    .error (dirMissingMsg a.main_directory)
  else if a.use_merge_config &&
      !truthy (get_merge_config a.cwd a.configs a.main_directory) then
    .error (configRequiredMsg a.main_directory)
  else
    .ok (subdirs.foldl (mergeStep a codec) ([], []))

/-! ## Theorems -/

/-! ### Dictionary lemmas -/

theorem dictLookup_nil {α : Type} (k : String) : dictLookup ([] : List (String × α)) k = none := rfl

theorem dictLookup_cons {α : Type} (e : String × α) (m : List (String × α)) (k : String) :
    dictLookup (e :: m) k = if e.1 = k then some e.2 else dictLookup m k := by
  by_cases h : e.1 = k <;> simp [dictLookup, List.find?, h]

theorem dictLookup_insert_self {α : Type} (m : List (String × α)) (k : String) (v : α) :
    dictLookup (dictInsert m k v) k = some v := by
  unfold dictInsert
  by_cases hs : (dictLookup m k).isSome
  · simp only [hs, if_true]
    induction m with
    | nil => simp [dictLookup] at hs
    | cons e es ih =>
      by_cases he : e.1 = k
      · simp [dictLookup_cons, he]
      · rw [dictLookup_cons] at hs
        simp only [he, if_false] at hs
        simpa [dictLookup_cons, he] using ih hs
  · simp only [hs, if_false]
    induction m with
    | nil => simp [dictLookup_cons]
    | cons e es ih =>
      rw [dictLookup_cons] at hs
      by_cases he : e.1 = k
      · simp [he] at hs
      · simp only [he, if_false] at hs
        simpa [dictLookup_cons, he] using ih hs

theorem dictLookup_map_replace {α : Type} (m : List (String × α)) (k k' : String) (v : α)
    (h : ¬ k' = k) :
    dictLookup (m.map (fun e => if e.1 = k then (k, v) else e)) k' = dictLookup m k' := by
  induction m with
  | nil => rfl
  | cons e es ih =>
    by_cases he : e.1 = k
    · have hek : ¬ (k = k') := fun hkk => h hkk.symm
      have he' : ¬ (e.1 = k') := by rw [he]; exact hek
      simp [dictLookup_cons, he, he', hek, ih]
    · by_cases he' : e.1 = k'
      · simp [dictLookup_cons, he, he', h]
      · simp [dictLookup_cons, he, he', ih]

theorem dictLookup_insert_ne {α : Type} (m : List (String × α)) (k k' : String) (v : α)
    (h : ¬ k' = k) : dictLookup (dictInsert m k v) k' = dictLookup m k' := by
  unfold dictInsert
  by_cases hs : (dictLookup m k).isSome
  · rw [if_pos hs]
    exact dictLookup_map_replace m k k' v h
  · rw [if_neg hs]
    simp only [dictLookup, List.find?_append]
    have hne : (decide (k = k')) = false := decide_eq_false (fun hkk => h hkk.symm)
    simp [List.find?, hne]

/-! ### JSON round trip -/

theorem decodeOrder_encode (v : List String) :
    decodeOrder (.jarr (v.map .jstr)) = some v := by
  simp only [decodeOrder]
  induction v with
  | nil => rfl
  | cons s ss ih => simp [decodeStems, decodeStem, ih]

theorem decodeConfigs_encode (m : List (String × List String)) :
    decodeConfigs (encodeConfigs m) = some m := by
  simp only [encodeConfigs, decodeConfigs]
  induction m with
  | nil => rfl
  | cons e es ih => simp [decodeEntries, decodeOrder_encode, ih]

/-- C5: configuration-store round trip.  After `set_merge_config k v`, a
`get_merge_config k` on the live store returns exactly `v`, and it still does
after the saved file is reloaded from disk by a fresh construction (a process
restart), provided the save succeeded. -/
theorem set_get_merge_config_roundtrip :
    ∀ (cwd : String) (configs : List (String × List String)) (k : String) (v : List String),
      get_merge_config cwd (set_merge_config cwd configs k v) k = some v ∧
      get_merge_config cwd
        (load_configs (save_configs (set_merge_config cwd configs k v))) k = some v := by
  intro cwd configs k v
  constructor
  · exact dictLookup_insert_self configs (abspath cwd k) v
  · simp only [save_configs, load_configs, decodeConfigs_encode, Option.getD_some]
    exact dictLookup_insert_self configs (abspath cwd k) v

/-! ### Path-normalisation lemmas

`abspath` is idempotent on any path once the working directory is absolute,
which is what makes keying the configuration mapping by `abspath` insensitive
to the spelling of the root path. -/

theorem splitSlash_slash_cons (l : List Char) : splitSlash ('/' :: l) = [] :: splitSlash l := by
  simp [splitSlash]

theorem splitSlash_ne_nil : ∀ l : List Char, ¬ splitSlash l = []
  | [] => by simp [splitSlash]
  | c :: cs => by
    by_cases h : c = '/'
    · simp [splitSlash, h]
    · simp only [splitSlash, if_neg h]
      cases hs : splitSlash cs <;> simp

theorem splitSlash_no_slash : ∀ (l : List Char), ∀ c ∈ splitSlash l, '/' ∉ c
  | [], c, hc => by
    simp [splitSlash] at hc
    simp [hc]
  | a :: as, c, hc => by
    by_cases h : a = '/'
    · rw [h, splitSlash_slash_cons] at hc
      rcases List.mem_cons.mp hc with h1 | h2
      · simp [h1]
      · exact splitSlash_no_slash as c h2
    · simp only [splitSlash, if_neg h] at hc
      cases hs : splitSlash as with
      | nil => exact absurd hs (splitSlash_ne_nil as)
      | cons b bs =>
        rw [hs] at hc
        rcases List.mem_cons.mp hc with h1 | h2
        · subst h1
          intro hm
          rcases List.mem_cons.mp hm with h3 | h4
          · exact h h3.symm
          · exact splitSlash_no_slash as b (hs ▸ List.mem_cons_self b bs) h4
        · exact splitSlash_no_slash as c (hs ▸ List.mem_cons_of_mem b h2)

theorem splitSlash_of_no_slash : ∀ (c : List Char), '/' ∉ c → splitSlash c = [c]
  | [], _ => rfl
  | a :: as, h => by
    have ha : ¬ a = '/' := fun hh => h (hh ▸ List.mem_cons_self a as)
    have ih := splitSlash_of_no_slash as (fun hm => h (List.mem_cons_of_mem a hm))
    simp [splitSlash, ha, ih]

theorem splitSlash_append_slash :
    ∀ (c : List Char) (l : List Char), '/' ∉ c →
      splitSlash (c ++ '/' :: l) = c :: splitSlash l
  | [], l, _ => by simpa using splitSlash_slash_cons l
  | a :: as, l, h => by
    have ha : ¬ a = '/' := fun hh => h (hh ▸ List.mem_cons_self a as)
    have ih := splitSlash_append_slash as l (fun hm => h (List.mem_cons_of_mem a hm))
    simp [splitSlash, ha, ih]

theorem splitSlash_joinSlash :
    ∀ (comps : List (List Char)), ¬ comps = [] → (∀ c ∈ comps, '/' ∉ c) →
      splitSlash (joinSlash comps) = comps
  | [], h, _ => absurd rfl h
  | [c], _, hns => by
    simp [joinSlash, splitSlash_of_no_slash c (hns c (List.mem_cons_self c []))]
  | c :: c' :: rest, _, hns => by
    have h1 : '/' ∉ c := hns c (List.mem_cons_self c _)
    have ih := splitSlash_joinSlash (c' :: rest) (by simp)
      (fun x hx => hns x (List.mem_cons_of_mem c hx))
    show splitSlash (c ++ '/' :: joinSlash (c' :: rest)) = c :: c' :: rest
    rw [splitSlash_append_slash c _ h1, ih]

theorem splitSlash_replicate :
    ∀ (k : Nat) (l : List Char),
      splitSlash (List.replicate k '/' ++ l) = List.replicate k [] ++ splitSlash l
  | 0, l => by simp
  | k + 1, l => by
    simp only [List.replicate_succ, List.cons_append, splitSlash_slash_cons,
      splitSlash_replicate k l]

theorem normStep_nil_comp (s : Nat) (acc : List (List Char)) :
    normStep s acc [] = acc := by
  simp [normStep]

theorem foldl_normStep_replicate_nil (s : Nat) :
    ∀ (k : Nat) (acc : List (List Char)),
      (List.replicate k ([] : List Char)).foldl (normStep s) acc = acc
  | 0, _ => rfl
  | k + 1, acc => by
    simp only [List.replicate_succ, List.foldl_cons, normStep_nil_comp]
    exact foldl_normStep_replicate_nil s k acc

theorem foldl_normStep_clean (s : Nat) :
    ∀ (comps : List (List Char)) (acc : List (List Char)),
      (∀ c ∈ comps, ¬ c = [] ∧ ¬ c = ['.'] ∧ ¬ c = ['.', '.']) →
      comps.foldl (normStep s) acc = comps.reverse ++ acc
  | [], _, _ => by simp
  | c :: cs, acc, h => by
    obtain ⟨h1, h2, h3⟩ := h c (List.mem_cons_self c cs)
    have hstep : normStep s acc c = c :: acc := by
      rw [normStep, if_neg (by simp [h1, h2]), if_pos (Or.inl h3)]
    rw [List.foldl_cons, hstep,
      foldl_normStep_clean s cs (c :: acc) (fun x hx => h x (List.mem_cons_of_mem c hx))]
    simp

theorem normStep_no_dd (s : Nat) (hs : ¬ s = 0) (acc : List (List Char)) (c : List Char)
    (hacc : ['.', '.'] ∉ acc) : ['.', '.'] ∉ normStep s acc c := by
  rw [normStep]
  by_cases h1 : c = [] ∨ c = ['.']
  · rw [if_pos h1]; exact hacc
  · rw [if_neg h1]
    by_cases h2 : ¬ c = ['.', '.'] ∨ (s = 0 ∧ acc = []) ∨ acc.head? = some ['.', '.']
    · rw [if_pos h2]
      intro hm
      rcases List.mem_cons.mp hm with h3 | h4
      · rcases h2 with h2a | h2b | h2c
        · exact h2a h3.symm
        · exact hs h2b.1
        · cases acc with
          | nil => simp at h2c
          | cons a t =>
            have : a = ['.', '.'] := by simpa using h2c
            exact hacc (this ▸ List.mem_cons_self a t)
      · exact hacc h4
    · rw [if_neg h2]
      intro hm
      exact hacc (List.mem_of_mem_tail hm)

theorem foldl_normStep_no_dd (s : Nat) (hs : ¬ s = 0) :
    ∀ (comps : List (List Char)) (acc : List (List Char)),
      ['.', '.'] ∉ acc → ['.', '.'] ∉ comps.foldl (normStep s) acc
  | [], _, hacc => hacc
  | c :: cs, acc, hacc =>
    foldl_normStep_no_dd s hs cs (normStep s acc c) (normStep_no_dd s hs acc c hacc)

theorem normStep_mem (s : Nat) (acc : List (List Char)) (c : List Char) (x : List Char)
    (hx : x ∈ normStep s acc c) : x ∈ acc ∨ (x = c ∧ ¬ c = [] ∧ ¬ c = ['.']) := by
  rw [normStep] at hx
  by_cases h1 : c = [] ∨ c = ['.']
  · rw [if_pos h1] at hx; exact Or.inl hx
  · rw [if_neg h1] at hx
    by_cases h2 : ¬ c = ['.', '.'] ∨ (s = 0 ∧ acc = []) ∨ acc.head? = some ['.', '.']
    · rw [if_pos h2] at hx
      rcases List.mem_cons.mp hx with h3 | h4
      · exact Or.inr ⟨h3, fun ha => h1 (Or.inl ha), fun ha => h1 (Or.inr ha)⟩
      · exact Or.inl h4
    · rw [if_neg h2] at hx
      exact Or.inl (List.mem_of_mem_tail hx)

theorem foldl_normStep_mem (s : Nat) :
    ∀ (comps : List (List Char)) (acc : List (List Char)) (x : List Char),
      x ∈ comps.foldl (normStep s) acc →
      x ∈ acc ∨ (x ∈ comps ∧ ¬ x = [] ∧ ¬ x = ['.'])
  | [], _, _, hx => Or.inl hx
  | c :: cs, acc, x, hx => by
    rcases foldl_normStep_mem s cs (normStep s acc c) x hx with h1 | h2
    · rcases normStep_mem s acc c x h1 with h3 | ⟨h4, h5, h6⟩
      · exact Or.inl h3
      · exact Or.inr ⟨h4 ▸ List.mem_cons_self c cs, h4 ▸ h5, h4 ▸ h6⟩
    · exact Or.inr ⟨List.mem_cons_of_mem c h2.1, h2.2.1, h2.2.2⟩

theorem mk_ne_empty {l : List Char} (h : ¬ l = []) : ¬ (⟨l⟩ : String) = "" :=
  fun hc => h (congrArg String.data hc)

theorem isAbs_iff_data (p : String) : isAbs p = true ↔ ∃ t, p.data = '/' :: t := by
  constructor
  · intro h
    cases hd : p.data with
    | nil => rw [isAbs, hd] at h; simp at h
    | cons c t =>
      rw [isAbs, hd] at h
      have hc : c = '/' := by simpa [List.take] using h
      exact ⟨t, by rw [hc]⟩
  · rintro ⟨t, ht⟩
    rw [isAbs, ht]
    simp [List.take]

theorem initialSlashes_of_abs (l : List Char) (h : l.take 1 = ['/']) :
    (initialSlashes l = 1 ∨ initialSlashes l = 2) ∧ ¬ initialSlashes l = 0 := by
  rw [initialSlashes, if_pos h]
  by_cases h2 : l.take 2 = ['/', '/'] ∧ ¬ l.take 3 = ['/', '/', '/']
  · rw [if_pos h2]; exact ⟨Or.inr rfl, by simp⟩
  · rw [if_neg h2]; exact ⟨Or.inl rfl, by simp⟩

/-- The computed shape of `normpath` on an absolute path: the preserved
leading slashes followed by the cleaned components joined with `/`. -/
theorem normpath_abs_eq (p : String) (h : isAbs p = true) :
    normpath p = ⟨List.replicate (initialSlashes p.data) '/' ++
      joinSlash (((splitSlash p.data).foldl (normStep (initialSlashes p.data)) []).reverse)⟩ := by
  obtain ⟨t, ht⟩ := (isAbs_iff_data p).mp h
  have htake : p.data.take 1 = ['/'] := by rw [ht]; simp [List.take]
  have hk := initialSlashes_of_abs p.data htake
  have hpne : ¬ p = "" := by
    intro hc
    rw [hc] at ht
    exact absurd ht (by simp [String.data])
  rw [normpath, if_neg hpne]
  have hres : ¬ (List.replicate (initialSlashes p.data) '/' ++
      joinSlash (((splitSlash p.data).foldl (normStep (initialSlashes p.data)) []).reverse)) = [] := by
    rcases hk.1 with h1 | h1 <;> rw [h1] <;> simp [List.replicate]
  simp only [if_neg hres]

/-- Every component surviving normalisation of an absolute path is nonempty,
slash-free, and none of `.` or `..`. -/
theorem normpath_comps_clean (p : String) (h : isAbs p = true) :
    ∀ x ∈ ((splitSlash p.data).foldl (normStep (initialSlashes p.data)) []).reverse,
      ¬ x = [] ∧ ¬ x = ['.'] ∧ ¬ x = ['.', '.'] ∧ '/' ∉ x := by
  obtain ⟨t, ht⟩ := (isAbs_iff_data p).mp h
  have htake : p.data.take 1 = ['/'] := by rw [ht]; simp [List.take]
  have hk := initialSlashes_of_abs p.data htake
  intro x hx
  rw [List.mem_reverse] at hx
  have hmem := foldl_normStep_mem (initialSlashes p.data) (splitSlash p.data) [] x hx
  have hdd := foldl_normStep_no_dd (initialSlashes p.data) hk.2 (splitSlash p.data) []
    (by simp)
  rcases hmem with h1 | ⟨h2, h3, h4⟩
  · simp at h1
  · exact ⟨h3, h4, fun hc => hdd (hc ▸ hx), splitSlash_no_slash p.data x h2⟩

theorem joinSlash_shape (comps : List (List Char))
    (hc : ∀ x ∈ comps, ¬ x = [] ∧ '/' ∉ x) :
    joinSlash comps = [] ∨ ∃ a s, joinSlash comps = a :: s ∧ ¬ a = '/' := by
  cases comps with
  | nil => exact Or.inl rfl
  | cons c rest =>
    obtain ⟨h1, h2⟩ := hc c (List.mem_cons_self c rest)
    cases c with
    | nil => exact absurd rfl h1
    | cons a cs =>
      have ha : ¬ a = '/' := fun hh => h2 (hh ▸ List.mem_cons_self a cs)
      cases rest with
      | nil => exact Or.inr ⟨a, cs, rfl, ha⟩
      | cons c' rest' => exact Or.inr ⟨a, cs ++ '/' :: joinSlash (c' :: rest'), rfl, ha⟩

theorem initialSlashes_replicate_join (k : Nat) (hk : k = 1 ∨ k = 2)
    (joined : List Char) (hj : joined = [] ∨ ∃ a s, joined = a :: s ∧ ¬ a = '/') :
    initialSlashes (List.replicate k '/' ++ joined) = k := by
  rcases hk with h1 | h1 <;> subst h1
  · rcases hj with h2 | ⟨a, s, h2, ha⟩ <;> subst h2
    · decide
    · simp [initialSlashes, List.replicate, List.take, ha]
  · rcases hj with h2 | ⟨a, s, h2, ha⟩ <;> subst h2
    · decide
    · simp [initialSlashes, List.replicate, List.take, ha]

/-- A path already in the normal form `normpath` produces for absolute paths
(one or two leading slashes followed by clean components) is a fixed point of
`normpath`. -/
theorem normpath_fixed (k : Nat) (hk : k = 1 ∨ k = 2) (comps : List (List Char))
    (hclean : ∀ x ∈ comps, ¬ x = [] ∧ ¬ x = ['.'] ∧ ¬ x = ['.', '.'] ∧ '/' ∉ x) :
    normpath ⟨List.replicate k '/' ++ joinSlash comps⟩ =
      ⟨List.replicate k '/' ++ joinSlash comps⟩ := by
  have htake : (List.replicate k '/' ++ joinSlash comps).take 1 = ['/'] := by
    rcases hk with hh | hh <;> rw [hh] <;> simp [List.replicate, List.take]
  have habs : isAbs (⟨List.replicate k '/' ++ joinSlash comps⟩ : String) = true :=
    decide_eq_true htake
  rw [normpath_abs_eq _ habs]
  have hslash : initialSlashes (List.replicate k '/' ++ joinSlash comps) = k :=
    initialSlashes_replicate_join k hk _
      (joinSlash_shape comps (fun x hx => ⟨(hclean x hx).1, (hclean x hx).2.2.2⟩))
  show (⟨List.replicate
      (initialSlashes (List.replicate k '/' ++ joinSlash comps)) '/' ++
      joinSlash ((List.foldl
        (normStep (initialSlashes (List.replicate k '/' ++ joinSlash comps))) []
        (splitSlash (List.replicate k '/' ++ joinSlash comps))).reverse)⟩ : String) = _
  rw [hslash]
  have hsplit2 : splitSlash (List.replicate k '/' ++ joinSlash comps) =
      List.replicate k [] ++ splitSlash (joinSlash comps) :=
    splitSlash_replicate k _
  cases hcs : comps with
  | nil =>
    subst hcs
    have : splitSlash (List.replicate k '/' ++ joinSlash []) =
        List.replicate k [] ++ [[]] := by rw [hsplit2]; rfl
    rw [this, List.foldl_append, foldl_normStep_replicate_nil, List.foldl_cons,
      normStep_nil_comp, List.foldl_nil]
    rfl
  | cons c rest =>
    have hcomps_ne : ¬ comps = [] := by rw [hcs]; simp
    rw [← hcs]
    have hsplitj : splitSlash (joinSlash comps) = comps :=
      splitSlash_joinSlash comps hcomps_ne (fun x hx => (hclean x hx).2.2.2)
    rw [hsplit2, hsplitj, List.foldl_append, foldl_normStep_replicate_nil,
      foldl_normStep_clean k comps []
        (fun x hx => ⟨(hclean x hx).1, (hclean x hx).2.1, (hclean x hx).2.2.1⟩)]
    simp

/-- Model of `posixpath.normpath` is idempotent on absolute paths. -/
theorem normpath_idem_abs (p : String) (h : isAbs p = true) :
    normpath (normpath p) = normpath p := by
  have htake : p.data.take 1 = ['/'] := by
    obtain ⟨t, ht⟩ := (isAbs_iff_data p).mp h
    rw [ht]; simp [List.take]
  have hk := (initialSlashes_of_abs p.data htake).1
  rw [normpath_abs_eq p h]
  exact normpath_fixed (initialSlashes p.data) hk _ (normpath_comps_clean p h)

theorem pathJoin_of_abs (a b : String) (h : isAbs b = true) : pathJoin a b = b := by
  rw [pathJoin, if_pos (of_decide_eq_true h)]

theorem isAbs_pathJoin (a b : String) (h : isAbs a = true) : isAbs (pathJoin a b) = true := by
  obtain ⟨t, ht⟩ := (isAbs_iff_data a).mp h
  rw [pathJoin]
  by_cases h1 : b.data.take 1 = ['/']
  · rw [if_pos h1]; exact decide_eq_true h1
  · rw [if_neg h1]
    by_cases h2 : a = "" ∨ (a.data.getLastD ' ') = '/'
    · rw [if_pos h2]
      apply decide_eq_true
      show (a ++ b).data.take 1 = ['/']
      rw [String.data_append, ht]
      simp [List.take]
    · rw [if_neg h2]
      apply decide_eq_true
      show (a ++ "/" ++ b).data.take 1 = ['/']
      rw [String.data_append, String.data_append, ht]
      simp [List.take]

theorem isAbs_normpath (p : String) (h : isAbs p = true) : isAbs (normpath p) = true := by
  have htake : p.data.take 1 = ['/'] := by
    obtain ⟨t, ht⟩ := (isAbs_iff_data p).mp h
    rw [ht]; simp [List.take]
  have hk := (initialSlashes_of_abs p.data htake).1
  rw [normpath_abs_eq p h]
  apply decide_eq_true
  show (List.replicate (initialSlashes p.data) '/' ++ _).take 1 = ['/']
  rcases hk with hh | hh <;> rw [hh] <;> simp [List.replicate, List.take]

/-- Model of `os.path.abspath` is idempotent whenever the working directory is
absolute: re-resolving an already resolved path changes nothing. -/
theorem abspath_idem (cwd p : String) (h : isAbs cwd = true) :
    abspath cwd (abspath cwd p) = abspath cwd p := by
  have habs : isAbs (abspath cwd p) = true :=
    isAbs_normpath _ (isAbs_pathJoin cwd p h)
  rw [abspath, pathJoin_of_abs cwd _ habs]
  exact normpath_idem_abs _ (isAbs_pathJoin cwd p h)

/-- C6: path-normalisation insensitivity of the configuration lookup.  Both
`set_merge_config` and `get_merge_config` key the mapping by the resolved
absolute path, so (i) any two spellings that resolve to the same absolute
path are interchangeable in `get_merge_config`, (ii) `get` of `abspath p`
agrees with `get` of `p`, and (iii) a value stored under one spelling is
returned under any spelling resolving to the same absolute path. -/
theorem get_merge_config_path_normalization :
    ∀ cwd : String, isAbs cwd = true →
      (∀ (configs : List (String × List String)) (p q : String),
        abspath cwd p = abspath cwd q →
        get_merge_config cwd configs p = get_merge_config cwd configs q) ∧
      (∀ (configs : List (String × List String)) (p : String),
        get_merge_config cwd configs (abspath cwd p) = get_merge_config cwd configs p) ∧
      (∀ (configs : List (String × List String)) (p q : String) (v : List String),
        abspath cwd p = abspath cwd q →
        get_merge_config cwd (set_merge_config cwd configs p v) q = some v) := by
  intro cwd h
  refine ⟨?_, ?_, ?_⟩
  · intro configs p q hpq
    rw [get_merge_config, get_merge_config, hpq]
  · intro configs p
    rw [get_merge_config, get_merge_config, abspath_idem cwd p h]
  · intro configs p q v hpq
    rw [get_merge_config, set_merge_config, ← hpq]
    exact dictLookup_insert_self configs (abspath cwd p) v

/-- Concrete instance of `get_merge_config_path_normalization`: under working
directory `/home/user`, the spellings `docs`, `docs/` and `/home/user/docs`
of the same root all hit the entry stored under the relative spelling. -/
theorem get_merge_config_path_normalization_witness :
    get_merge_config "/home/user"
        (set_merge_config "/home/user" [] "docs" ["intro", "body"]) "docs/" = some ["intro", "body"] ∧
    get_merge_config "/home/user"
        (set_merge_config "/home/user" [] "docs" ["intro", "body"]) "/home/user/docs" = some ["intro", "body"] ∧
    get_merge_config "/home/user"
        (set_merge_config "/home/user" [] "docs" ["intro", "body"])
        (abspath "/home/user" "docs") = some ["intro", "body"] :=
  ⟨(get_merge_config_path_normalization "/home/user" (by decide)).2.2 [] "docs" "docs/"
      ["intro", "body"] (by decide),
   (get_merge_config_path_normalization "/home/user" (by decide)).2.2 [] "docs" "/home/user/docs"
      ["intro", "body"] (by decide),
   (get_merge_config_path_normalization "/home/user" (by decide)).2.2 [] "docs"
      (abspath "/home/user" "docs") ["intro", "body"] (by decide)⟩

/-! ### Character-level lemmas for the ASCII model -/

theorem toNat_ofNat_valid {n : Nat} (h : n.isValidChar) : (Char.ofNat n).toNat = n := by
  rw [Char.ofNat, dif_pos h]
  rfl

theorem pyIsDigit_pyLower (c : Char) : pyIsDigit (pyLower c) = pyIsDigit c := by
  rw [pyLower]
  by_cases h : 65 ≤ c.toNat ∧ c.toNat ≤ 90
  · rw [if_pos h]
    have hv : (c.toNat + 32).isValidChar := Or.inl (by omega)
    rw [pyIsDigit, pyIsDigit, toNat_ofNat_valid hv,
      decide_eq_false (by omega : ¬ (c.toNat + 32 ≤ 57)),
      decide_eq_false (by omega : ¬ (c.toNat ≤ 57))]
    simp
  · rw [if_neg h]

theorem pyLower_pyLower (c : Char) : pyLower (pyLower c) = pyLower c := by
  by_cases h : 65 ≤ c.toNat ∧ c.toNat ≤ 90
  · have hv : (c.toNat + 32).isValidChar := Or.inl (by omega)
    have h1 : pyLower c = Char.ofNat (c.toNat + 32) := by rw [pyLower, if_pos h]
    rw [h1, pyLower, toNat_ofNat_valid hv, if_neg (by omega)]
  · have h1 : pyLower c = c := by rw [pyLower, if_neg h]
    rw [h1, h1]

theorem pyLower_of_digit (c : Char) (h : pyIsDigit c = true) : pyLower c = c := by
  rw [pyIsDigit, Bool.and_eq_true, decide_eq_true_eq, decide_eq_true_eq] at h
  rw [pyLower, if_neg (by omega)]

theorem map_pyLower_of_digits :
    ∀ ds : List Char, (∀ c ∈ ds, pyIsDigit c = true) → ds.map pyLower = ds
  | [], _ => rfl
  | c :: cs, h => by
    rw [List.map_cons, pyLower_of_digit c (h c (List.mem_cons_self c cs)),
      map_pyLower_of_digits cs (fun x hx => h x (List.mem_cons_of_mem c hx))]

/-! ### Lower-casing a string does not change its key -/

theorem takeWhile_digits_all (l : List Char) :
    ∀ c ∈ l.takeWhile pyIsDigit, pyIsDigit c = true := by
  intro c hc
  have := List.all_takeWhile (p := pyIsDigit) (l := l)
  exact (List.all_eq_true.mp this) c hc

theorem splitGo_map_pyLower :
    ∀ (fuel : Nat) (l : List Char), splitGo fuel (l.map pyLower) = splitGo fuel l := by
  intro fuel
  induction fuel with
  | zero =>
    intro l
    cases l <;> rfl
  | succ fuel ih =>
    intro l
    cases l with
    | nil => rfl
    | cons c cs =>
      have hp : (fun x => pyIsDigit (pyLower x)) = pyIsDigit := funext pyIsDigit_pyLower
      have hq : (fun x => !pyIsDigit (pyLower x)) = (fun x => !pyIsDigit x) :=
        funext (fun x => by rw [pyIsDigit_pyLower])
      have hds : (((c :: cs).map pyLower).takeWhile pyIsDigit)
          = ((c :: cs).takeWhile pyIsDigit).map pyLower := by
        rw [List.takeWhile_map]
        simp only [Function.comp_def]
        rw [hp]
      have hrest : (((c :: cs).map pyLower).dropWhile pyIsDigit)
          = ((c :: cs).dropWhile pyIsDigit).map pyLower := by
        rw [List.dropWhile_map]
        simp only [Function.comp_def]
        rw [hp]
      show toLex (digitsToNat (((c :: cs).map pyLower).takeWhile pyIsDigit),
            ((((c :: cs).map pyLower).dropWhile pyIsDigit).takeWhile
                (fun x => !pyIsDigit x)).map pyLower) ::
          splitGo fuel ((((c :: cs).map pyLower).dropWhile pyIsDigit).dropWhile
            (fun x => !pyIsDigit x)) =
        toLex (digitsToNat ((c :: cs).takeWhile pyIsDigit),
            (((c :: cs).dropWhile pyIsDigit).takeWhile
                (fun x => !pyIsDigit x)).map pyLower) ::
          splitGo fuel (((c :: cs).dropWhile pyIsDigit).dropWhile (fun x => !pyIsDigit x))
      rw [hds, hrest]
      rw [map_pyLower_of_digits _ (takeWhile_digits_all (c :: cs))]
      rw [List.takeWhile_map, List.dropWhile_map]
      simp only [Function.comp_def]
      rw [hq, List.map_map]
      have hcomp : pyLower ∘ pyLower = pyLower := funext (fun x => by
        show pyLower (pyLower x) = pyLower x
        exact pyLower_pyLower x)
      rw [hcomp, ih]

theorem natural_sort_key_lowerStr (s : String) :
    natural_sort_key (lowerStr s) = natural_sort_key s := by
  have hdata : (lowerStr s).data = s.data.map pyLower := rfl
  rw [natural_sort_key, natural_sort_key, hdata]
  have hq : (fun x => !pyIsDigit (pyLower x)) = (fun x => !pyIsDigit x) :=
    funext (fun x => by rw [pyIsDigit_pyLower])
  rw [List.takeWhile_map, List.dropWhile_map]
  simp only [Function.comp_def]
  rw [hq, List.map_map]
  have hcomp : pyLower ∘ pyLower = pyLower := funext (fun x => by
    show pyLower (pyLower x) = pyLower x
    exact pyLower_pyLower x)
  rw [hcomp, List.length_map, splitGo_map_pyLower]

/-! ### The induced order -/

theorem lex_lt_of_take {α : Type} [LT α] :
    ∀ (l m : List α), m.take l.length = l → ¬ l = m → List.Lex (fun a b => a < b) l m
  | [], m, _, hne => by
    cases m with
    | nil => exact absurd rfl hne
    | cons b bs => exact List.Lex.nil
  | a :: as, m, htake, hne => by
    cases m with
    | nil => simp [List.take] at htake
    | cons b bs =>
      rw [List.length_cons, List.take_succ_cons] at htake
      obtain ⟨hb, ht⟩ := List.cons.inj htake
      subst hb
      exact List.Lex.cons (lex_lt_of_take as bs ht (fun hh => hne (by rw [hh])))

/-- C3: the comparison induced by `natural_sort_key` is a total order on keys:
total, transitive, and antisymmetric up to key equality (strings differing
only in letter case share one key, which is exactly the stated
case-insensitive treatment of non-digit runs).  Maximal digit runs compare as
unbounded-size integers, lower-casing a string never changes its key, a key
whose run sequence is a proper prefix of another's sorts first, and in
particular `file2.pdf` sorts before `file10.pdf`. -/
theorem natural_sort_key_order :
    (∀ a b : String, keyLe a b ∨ keyLe b a) ∧
    (∀ a b c : String, keyLe a b → keyLe b c → keyLe a c) ∧
    (∀ a b : String, keyLe a b → keyLe b a → natural_sort_key a = natural_sort_key b) ∧
    (∀ (s : List Char) (n m : Nat) (u v : List Char)
        (l l' : List (Lex (Nat × List Char))),
      n < m → (toLex (s, toLex (n, u) :: l) : NatSortKey) < toLex (s, toLex (m, v) :: l')) ∧
    (∀ s : String, natural_sort_key (lowerStr s) = natural_sort_key s) ∧
    (∀ (a b : String) (s : List Char) (l m : List (Lex (Nat × List Char))),
      natural_sort_key a = toLex (s, l) → natural_sort_key b = toLex (s, m) →
      m.take l.length = l → ¬ l = m → keyLt a b) ∧
    keyLt "file2.pdf" "file10.pdf" := by
  refine ⟨?_, ?_, ?_, ?_, ?_, ?_, ?_⟩
  · intro a b
    exact le_total (natural_sort_key a) (natural_sort_key b)
  · intro a b c hab hbc
    exact le_trans hab hbc
  · intro a b hab hba
    exact le_antisymm hab hba
  · intro s n m u v l l' h
    rw [Prod.Lex.lt_iff]
    right
    refine ⟨rfl, ?_⟩
    show List.Lex (fun a b => a < b) (toLex (n, u) :: l) (toLex (m, v) :: l')
    apply List.Lex.rel
    rw [Prod.Lex.lt_iff]
    exact Or.inl h
  · exact natural_sort_key_lowerStr
  · intro a b s l m ha hb htake hne
    show natural_sort_key a < natural_sort_key b
    rw [ha, hb, Prod.Lex.lt_iff]
    right
    refine ⟨rfl, ?_⟩
    show List.Lex (fun x y => x < y) l m
    exact lex_lt_of_take l m htake hne
  · decide

/-- Concrete instances of `natural_sort_key_order`: the digit-run clause at
`2 < 10` and the proper-prefix clause at `"a"` versus `"a1"`. -/
theorem natural_sort_key_order_witness :
    ((toLex (['a'], [toLex (2, [])]) : NatSortKey) < toLex (['a'], [toLex (10, [])])) ∧
    keyLt "a" "a1" :=
  ⟨natural_sort_key_order.2.2.2.1 ['a'] 2 10 [] [] [] [] (by decide),
   natural_sort_key_order.2.2.2.2.2.1 "a" "a1" ['a'] [] [toLex (1, [])]
     (by rfl) (by rfl) (by decide) (by decide)⟩

/-- C4: `format_output_filename` is pure textual substitution of the four
placeholders followed by the `.pdf` rule: the suffix is appended exactly when
the substituted string does not already end case-insensitively in `.pdf`.
On a fixed clock, `{directory}_{date}.pdf` under `.../Reports` yields
`Reports_2024-01-15.pdf`, and a template ending in `.PDF` receives no second
suffix. -/
theorem format_output_filename_spec :
    (∀ (template directory_name : String) (now : DateTime),
      (pyEndsWith (lowerStr (substPlaceholders template directory_name now)) ".pdf" = true →
        format_output_filename template directory_name now =
          substPlaceholders template directory_name now) ∧
      (pyEndsWith (lowerStr (substPlaceholders template directory_name now)) ".pdf" = false →
        format_output_filename template directory_name now =
          substPlaceholders template directory_name now ++ ".pdf")) ∧
    format_output_filename "{directory}_{date}.pdf" "/data/Reports" sampleClock
      = "Reports_2024-01-15.pdf" ∧
    format_output_filename "{directory}.PDF" "/data/Reports" sampleClock
      = "Reports.PDF" := by
  refine ⟨?_, by decide, by decide⟩
  intro template directory_name now
  constructor
  · intro h
    rw [format_output_filename]
    simp only [h, if_true]
  · intro h
    rw [format_output_filename]
    simp only [h, Bool.false_eq_true, if_false]

/-- Concrete instance of `format_output_filename_spec`: a template with no
`.pdf` ending gets the suffix appended, one ending in `.pdf` does not. -/
theorem format_output_filename_spec_witness :
    format_output_filename "{directory}_merged" "/data/Reports" sampleClock
      = substPlaceholders "{directory}_merged" "/data/Reports" sampleClock ++ ".pdf" ∧
    format_output_filename "out.pdf" "/data/Reports" sampleClock
      = substPlaceholders "out.pdf" "/data/Reports" sampleClock :=
  ⟨(format_output_filename_spec.1 "{directory}_merged" "/data/Reports" sampleClock).2 (by decide),
   (format_output_filename_spec.1 "out.pdf" "/data/Reports" sampleClock).1 (by decide)⟩

/-! ### Characterising the selector fold -/

/-- The missing list accumulated by the `find_merge_config_files` fold is the
in-order sublist of stems with no match, and the dict answers every queried
stem that occurred with its (unique, input-independent) match. -/
theorem find_fold_characterization (all_files : List String) :
    ∀ (stems : List String) (d0 : List (String × List String)) (miss0 : List String),
      (stems.foldl
        (fun acc stem =>
          match matchStem all_files stem with
          | some f => (dictInsert acc.1 stem [f], acc.2)
          | none => (acc.1, acc.2 ++ [stem]))
        (d0, miss0)).2 =
        miss0 ++ stems.filter (fun s => (matchStem all_files s).isNone) ∧
      ∀ s : String,
        dictLookup (stems.foldl
          (fun acc stem =>
            match matchStem all_files stem with
            | some f => (dictInsert acc.1 stem [f], acc.2)
            | none => (acc.1, acc.2 ++ [stem]))
          (d0, miss0)).1 s =
          match matchStem all_files s with
          | some f => if s ∈ stems then some [f] else dictLookup d0 s
          | none => dictLookup d0 s
  | [], d0, miss0 => by
    constructor
    · simp
    · intro s
      cases h : matchStem all_files s <;> simp
  | t :: ts, d0, miss0 => by
    constructor
    · cases hm : matchStem all_files t with
      | some f =>
        have ih := (find_fold_characterization all_files ts (dictInsert d0 t [f]) miss0).1
        simp only [List.foldl_cons, hm]
        rw [ih, List.filter_cons]
        simp [hm]
      | none =>
        have ih := (find_fold_characterization all_files ts d0 (miss0 ++ [t])).1
        simp only [List.foldl_cons, hm]
        rw [ih, List.filter_cons]
        simp [hm]
    · intro s
      cases hm : matchStem all_files t with
      | some f =>
        have ih := (find_fold_characterization all_files ts (dictInsert d0 t [f]) miss0).2 s
        simp only [List.foldl_cons, hm]
        rw [ih]
        cases hs : matchStem all_files s with
        | some g =>
          by_cases hin : s ∈ ts
          · simp [hin]
          · by_cases hst : s = t
            · subst hst
              have hgf : g = f := by
                rw [hs] at hm
                cases hm
                rfl
              subst hgf
              simp [hin, dictLookup_insert_self]
            · simp [hin, hst, dictLookup_insert_ne d0 t s [f] hst]
        | none =>
          by_cases hst : s = t
          · subst hst
            rw [hs] at hm
            exact absurd hm (by simp)
          · simp [dictLookup_insert_ne d0 t s [f] hst]
      | none =>
        have ih := (find_fold_characterization all_files ts d0 (miss0 ++ [t])).2 s
        simp only [List.foldl_cons, hm]
        rw [ih]
        cases hs : matchStem all_files s with
        | some g =>
          by_cases hin : s ∈ ts
          · simp [hin]
          · by_cases hst : s = t
            · subst hst
              rw [hs] at hm
              exact absurd hm (by simp)
            · simp [hin, hst]
        | none => rfl

/-- The `get_ordered_merge_files` fold expands to a `filterMap` when the dict
answers every stem with its match. -/
theorem get_ordered_eq_filterMap (all_files : List String)
    (d : List (String × List String))
    (stems : List String)
    (hd : ∀ s ∈ stems, dictLookup d s = (matchStem all_files s).map (fun f => [f])) :
    get_ordered_merge_files d stems = stems.filterMap (matchStem all_files) := by
  rw [get_ordered_merge_files]
  suffices h : ∀ (ss : List String) (acc : List String),
      (∀ s ∈ ss, dictLookup d s = (matchStem all_files s).map (fun f => [f])) →
      (ss.foldl
        (fun ordered_files stem =>
          match dictLookup d stem with
          | some fs => ordered_files ++ fs
          | none => ordered_files)
        acc) = acc ++ ss.filterMap (matchStem all_files) by
    simpa using h stems [] hd
  intro ss
  induction ss with
  | nil => intro acc _; simp
  | cons t ts ih =>
    intro acc hss
    have ht := hss t (List.mem_cons_self t ts)
    have hts := fun s hs => hss s (List.mem_cons_of_mem t hs)
    cases hm : matchStem all_files t with
    | some f =>
      have ht' : dictLookup d t = some [f] := by rw [ht, hm]; rfl
      simp only [List.foldl_cons, ht']
      rw [ih (acc ++ [f]) hts, List.filterMap_cons, hm]
      simp
    | none =>
      have ht' : dictLookup d t = none := by rw [ht, hm]; rfl
      simp only [List.foldl_cons, ht']
      rw [ih acc hts, List.filterMap_cons, hm]

/-- The ordered file list of the selector pipeline expands to the in-order
`filterMap` of the stem resolution function over `merge_order`. -/
theorem get_ordered_find_filterMap :
    ∀ (dirPath : String) (entries : List FileEntry) (merge_order : List String),
      get_ordered_merge_files (find_merge_config_files dirPath entries merge_order).2.1
          merge_order
        = merge_order.filterMap (matchStem (allPdfFiles dirPath entries)) := by
  intro dirPath entries merge_order
  apply get_ordered_eq_filterMap (allPdfFiles dirPath entries)
  intro s hs
  have hchar :=
    (find_fold_characterization (allPdfFiles dirPath entries) merge_order [] []).2 s
  rw [find_merge_config_files]
  show dictLookup (List.foldl _ ([], []) merge_order).1 s = _
  rw [hchar]
  cases hm : matchStem (allPdfFiles dirPath entries) s with
  | some f => simp [hs]
  | none => rfl

/-- C2: the ordered file list of the config-based selector follows exactly
the order of the required stems — it is the in-order `filterMap` of the stem
resolution function over `merge_order`, for every directory listing, so the
concatenation order is the configured order regardless of on-disk order. -/
theorem get_ordered_merge_files_follows_merge_order :
    ∀ (dirPath : String) (entries : List FileEntry) (merge_order : List String),
      get_ordered_merge_files (find_merge_config_files dirPath entries merge_order).2.1
          merge_order
        = merge_order.filterMap (matchStem (allPdfFiles dirPath entries)) :=
  get_ordered_find_filterMap

theorem filterMap_filter_isNone_length {α β : Type} (f : α → Option β) :
    ∀ l : List α,
      (l.filterMap f).length + (l.filter (fun x => (f x).isNone)).length = l.length
  | [] => rfl
  | x :: xs => by
    rw [List.filterMap_cons, List.filter_cons]
    cases hx : f x with
    | some y =>
      simp only [hx, Option.isNone_some, Bool.false_eq_true, if_false, List.length_cons]
      have := filterMap_filter_isNone_length f xs
      omega
    | none =>
      simp only [hx, Option.isNone_none, if_true, List.length_cons]
      have := filterMap_filter_isNone_length f xs
      omega

/-- C10: stem resolution partitions the required stems.  Every stem
occurrence lands in exactly one of the ordered file list and the missing
list, so their lengths add up to the length of `merge_order`, and the
`all_found` flag holds exactly when the ordered file list accounts for every
stem. -/
theorem find_merge_config_files_partition :
    ∀ (dirPath : String) (entries : List FileEntry) (merge_order : List String),
      (get_ordered_merge_files (find_merge_config_files dirPath entries merge_order).2.1
          merge_order).length
        + (find_merge_config_files dirPath entries merge_order).2.2.length
        = merge_order.length ∧
      ((find_merge_config_files dirPath entries merge_order).1 = true ↔
        (get_ordered_merge_files (find_merge_config_files dirPath entries merge_order).2.1
          merge_order).length = merge_order.length) := by
  intro dirPath entries merge_order
  have hmiss :
      (find_merge_config_files dirPath entries merge_order).2.2 =
        merge_order.filter
          (fun s => (matchStem (allPdfFiles dirPath entries) s).isNone) := by
    rw [find_merge_config_files]
    show (List.foldl _ ([], []) merge_order).2 = _
    have := (find_fold_characterization (allPdfFiles dirPath entries) merge_order [] []).1
    simpa using this
  have hord := get_ordered_find_filterMap dirPath entries merge_order
  have hpart := filterMap_filter_isNone_length
    (matchStem (allPdfFiles dirPath entries)) merge_order
  constructor
  · rw [hord, hmiss]
    exact hpart
  · have hflag : (find_merge_config_files dirPath entries merge_order).1 =
        (find_merge_config_files dirPath entries merge_order).2.2.isEmpty := by
      rw [find_merge_config_files]
    rw [hflag, List.isEmpty_iff, hord, hmiss]
    constructor
    · intro h
      rw [h] at hpart
      simpa using hpart
    · intro h
      rw [h] at hpart
      have : (merge_order.filter
          (fun s => (matchStem (allPdfFiles dirPath entries) s).isNone)).length = 0 := by
        omega
      exact List.length_eq_zero.mp this

/-! ### Mandatory configuration (C1, C9) -/

/-- C1: in whole-root configuration mode with no stored configuration, both
`merge_pdfs` and `preview_merge` fail with the configuration-required error.
The conclusion holds for every subdirectory list and every codec, so the
error is raised before any per-subdirectory work: no subdirectory influences
the outcome and no codec invocation (file write) can occur. -/
theorem mandatory_config_checked_first :
    ∀ (a : MergeArgs) (subdirs : List SubDir) (codec : List String → String → Bool),
      a.use_merge_config = true →
      get_merge_config a.cwd a.configs a.main_directory = none →
      merge_pdfs a true subdirs codec = .error (configRequiredMsg a.main_directory) ∧
      preview_merge a true subdirs = .error (configRequiredMsg a.main_directory) := by
  intro a subdirs codec hmode hcfg
  constructor
  · rw [merge_pdfs]
    simp [hmode, hcfg, truthy]
  · rw [preview_merge]
    simp [hmode, hcfg, truthy]

/-- Concrete instance of `mandatory_config_checked_first`: an empty store and
a nonempty main directory still yield the configuration error. -/
theorem mandatory_config_checked_first_witness :
    merge_pdfs ⟨"/", [], fun _ n => pyEndsWith n ".pdf", sampleClock, "/data", "*.pdf",
        "{directory}.pdf", true⟩ true [⟨"sub", [⟨"intro.pdf", true⟩]⟩]
        (fun _ _ => true)
      = .error (configRequiredMsg "/data") ∧
    preview_merge ⟨"/", [], fun _ n => pyEndsWith n ".pdf", sampleClock, "/data", "*.pdf",
        "{directory}.pdf", true⟩ true [⟨"sub", [⟨"intro.pdf", true⟩]⟩]
      = .error (configRequiredMsg "/data") :=
  mandatory_config_checked_first
    ⟨"/", [], fun _ n => pyEndsWith n ".pdf", sampleClock, "/data", "*.pdf",
      "{directory}.pdf", true⟩
    [⟨"sub", [⟨"intro.pdf", true⟩]⟩] (fun _ _ => true) rfl (by decide)

/-- C9: an empty stored merge order is indistinguishable from an absent one:
the mandatory-configuration check tests Python falsiness, and `[]` is falsy,
so both operations raise exactly the same configuration-required error as
when nothing is stored. -/
theorem empty_config_same_as_absent :
    ∀ (a : MergeArgs) (subdirs : List SubDir) (codec : List String → String → Bool),
      a.use_merge_config = true →
      get_merge_config a.cwd a.configs a.main_directory = some [] →
      merge_pdfs a true subdirs codec = .error (configRequiredMsg a.main_directory) ∧
      preview_merge a true subdirs = .error (configRequiredMsg a.main_directory) := by
  intro a subdirs codec hmode hcfg
  constructor
  · rw [merge_pdfs]
    simp [hmode, hcfg, truthy]
  · rw [preview_merge]
    simp [hmode, hcfg, truthy]

/-- Concrete instance of `empty_config_same_as_absent`: a configuration
stored as the empty list triggers the same error as no configuration. -/
theorem empty_config_same_as_absent_witness :
    merge_pdfs ⟨"/", [("/data", [])], fun _ n => pyEndsWith n ".pdf", sampleClock, "/data",
        "*.pdf", "{directory}.pdf", true⟩ true [⟨"sub", [⟨"intro.pdf", true⟩]⟩]
        (fun _ _ => true)
      = .error (configRequiredMsg "/data") ∧
    preview_merge ⟨"/", [("/data", [])], fun _ n => pyEndsWith n ".pdf", sampleClock, "/data",
        "*.pdf", "{directory}.pdf", true⟩ true [⟨"sub", [⟨"intro.pdf", true⟩]⟩]
      = .error (configRequiredMsg "/data") :=
  empty_config_same_as_absent
    ⟨"/", [("/data", [])], fun _ n => pyEndsWith n ".pdf", sampleClock, "/data", "*.pdf",
      "{directory}.pdf", true⟩
    [⟨"sub", [⟨"intro.pdf", true⟩]⟩] (fun _ _ => true) rfl (by decide)

/-! ### The merge loop (C7) -/

theorem mergeStep_foldl (a : MergeArgs) (codec : List String → String → Bool) :
    ∀ (subdirs : List SubDir) (acc : List String × List (List String × String)),
      subdirs.foldl (mergeStep a codec) acc =
        (acc.1 ++ subdirs.filterMap (fun sd =>
            if ¬ (selectedFiles a sd).isEmpty = true ∧
                codec (selectedFiles a sd) (outputPathFor a sd) = true
            then some (outputPathFor a sd) else none),
         acc.2 ++ subdirs.filterMap (fun sd =>
            if (selectedFiles a sd).isEmpty = true then none
            else some (selectedFiles a sd, outputPathFor a sd)))
  | [], acc => by simp
  | sd :: sds, acc => by
    by_cases hempty : (selectedFiles a sd).isEmpty = true
    · have hstep : mergeStep a codec acc sd = acc := by
        rw [mergeStep, if_pos hempty]
      have hf : (if ¬ (selectedFiles a sd).isEmpty = true ∧
            codec (selectedFiles a sd) (outputPathFor a sd) = true
          then some (outputPathFor a sd) else none) = none :=
        if_neg (fun hc => hc.1 hempty)
      have hg : (if (selectedFiles a sd).isEmpty = true then none
          else some (selectedFiles a sd, outputPathFor a sd)) = none := if_pos hempty
      rw [List.foldl_cons, hstep, mergeStep_foldl a codec sds acc]
      simp only [List.filterMap_cons, hf, hg]
    · by_cases hcodec : codec (selectedFiles a sd) (outputPathFor a sd) = true
      · have hstep : mergeStep a codec acc sd =
            (acc.1 ++ [outputPathFor a sd],
             acc.2 ++ [(selectedFiles a sd, outputPathFor a sd)]) := by
          rw [mergeStep, if_neg hempty, if_pos hcodec]
        have hf : (if ¬ (selectedFiles a sd).isEmpty = true ∧
              codec (selectedFiles a sd) (outputPathFor a sd) = true
            then some (outputPathFor a sd) else none) = some (outputPathFor a sd) :=
          if_pos ⟨hempty, hcodec⟩
        have hg : (if (selectedFiles a sd).isEmpty = true then none
            else some (selectedFiles a sd, outputPathFor a sd)) =
            some (selectedFiles a sd, outputPathFor a sd) := if_neg hempty
        rw [List.foldl_cons, hstep, mergeStep_foldl a codec sds _]
        simp only [List.filterMap_cons, hf, hg]
        simp
      · have hstep : mergeStep a codec acc sd =
            (acc.1, acc.2 ++ [(selectedFiles a sd, outputPathFor a sd)]) := by
          rw [mergeStep, if_neg hempty, if_neg hcodec]
        have hf : (if ¬ (selectedFiles a sd).isEmpty = true ∧
              codec (selectedFiles a sd) (outputPathFor a sd) = true
            then some (outputPathFor a sd) else none) = none :=
          if_neg (fun hc => hcodec hc.2)
        have hg : (if (selectedFiles a sd).isEmpty = true then none
            else some (selectedFiles a sd, outputPathFor a sd)) =
            some (selectedFiles a sd, outputPathFor a sd) := if_neg hempty
        rw [List.foldl_cons, hstep, mergeStep_foldl a codec sds _]
        simp only [List.filterMap_cons, hf, hg]
        simp

/-- The merge loop expands to two `filterMap`s over the subdirectory list:
surviving output paths and attempted codec invocations. -/
theorem merge_pdfs_ok_eq :
    ∀ (a : MergeArgs) (subdirs : List SubDir) (codec : List String → String → Bool),
      (a.use_merge_config = true →
        truthy (get_merge_config a.cwd a.configs a.main_directory) = true) →
      merge_pdfs a true subdirs codec =
        .ok (subdirs.filterMap (fun sd =>
              if ¬ (selectedFiles a sd).isEmpty = true ∧
                  codec (selectedFiles a sd) (outputPathFor a sd) = true
              then some (outputPathFor a sd) else none),
            subdirs.filterMap (fun sd =>
              if (selectedFiles a sd).isEmpty = true then none
              else some (selectedFiles a sd, outputPathFor a sd))) := by
  intro a subdirs codec hcfg
  rw [merge_pdfs]
  have hcond : (a.use_merge_config &&
      !truthy (get_merge_config a.cwd a.configs a.main_directory)) = false := by
    cases hmode : a.use_merge_config with
    | false => rfl
    | true => rw [hcfg hmode]; rfl
  simp only [Bool.not_true, Bool.false_eq_true, if_false, hcond]
  rw [mergeStep_foldl a codec subdirs ([], [])]
  simp

/-- C7: per-subdirectory failure isolation.  Under a valid main directory and
(in configuration mode) a stored configuration, `merge_pdfs` always succeeds,
its result is exactly the output paths of the subdirectories whose selection
was nonempty and whose codec call succeeded, in subdirectory-processing
order, and its codec-invocation trace covers every subdirectory with a
nonempty selection — a codec failure in one subdirectory removes only that
subdirectory's output and aborts nothing. -/
theorem merge_pdfs_failure_isolation :
    ∀ (a : MergeArgs) (subdirs : List SubDir) (codec : List String → String → Bool),
      (a.use_merge_config = true →
        truthy (get_merge_config a.cwd a.configs a.main_directory) = true) →
      merge_pdfs a true subdirs codec =
        .ok (subdirs.filterMap (fun sd =>
              if ¬ (selectedFiles a sd).isEmpty = true ∧
                  codec (selectedFiles a sd) (outputPathFor a sd) = true
              then some (outputPathFor a sd) else none),
            subdirs.filterMap (fun sd =>
              if (selectedFiles a sd).isEmpty = true then none
              else some (selectedFiles a sd, outputPathFor a sd))) :=
  merge_pdfs_ok_eq

/-- Concrete instance of `merge_pdfs_failure_isolation`: two configured
subdirectories; the codec fails on the first output path and succeeds on the
second, so exactly the second output is returned while both invocations are
traced. -/
theorem merge_pdfs_failure_isolation_witness :
    merge_pdfs ⟨"/", [("/data", ["intro"])], fun _ _ => false, sampleClock, "/data", "*.pdf",
        "{directory}.pdf", true⟩ true
        [⟨"p1", [⟨"intro.pdf", true⟩]⟩, ⟨"p2", [⟨"intro.pdf", true⟩]⟩]
        (fun _ out => !(out == "/data/p1/p1.pdf"))
      = .ok (["/data/p2/p2.pdf"],
          [(["/data/p1/intro.pdf"], "/data/p1/p1.pdf"),
           (["/data/p2/intro.pdf"], "/data/p2/p2.pdf")]) := by
  have h := merge_pdfs_failure_isolation
    ⟨"/", [("/data", ["intro"])], fun _ _ => false, sampleClock, "/data", "*.pdf",
      "{directory}.pdf", true⟩
    [⟨"p1", [⟨"intro.pdf", true⟩]⟩, ⟨"p2", [⟨"intro.pdf", true⟩]⟩]
    (fun _ out => !(out == "/data/p1/p1.pdf"))
    (fun _ => by decide)
  rw [h]
  rfl

/-! ### The preview loop (C8) -/

theorem preview_foldl (a : MergeArgs) :
    ∀ (subdirs : List SubDir) (acc : List PreviewEntry),
      subdirs.foldl
        (fun preview_data sd =>
          match previewEntryOpt a sd with
          | some e => preview_data ++ [e]
          | none => preview_data)
        acc = acc ++ subdirs.filterMap (previewEntryOpt a)
  | [], acc => by simp
  | sd :: sds, acc => by
    cases hpe : previewEntryOpt a sd with
    | some e =>
      simp only [List.foldl_cons, hpe, List.filterMap_cons]
      rw [preview_foldl a sds (acc ++ [e])]
      simp
    | none =>
      simp only [List.foldl_cons, hpe, List.filterMap_cons]
      exact preview_foldl a sds acc

/-- Case analysis of the preview entry of one subdirectory against the merge
selection: a nonempty selection yields a `ready` entry carrying exactly the
selected files and the computed output path; an empty selection yields either
no entry (pattern mode, or a degenerate complete resolution of no stems) or a
`missing` entry with an empty file list (configuration mode). -/
theorem previewEntryOpt_cases (a : MergeArgs) (sd : SubDir) :
    (¬ (selectedFiles a sd).isEmpty = true →
      ∃ info : StatusInfo, info.status = "ready" ∧
        previewEntryOpt a sd =
          some ⟨subdirPath a sd, selectedFiles a sd, outputPathFor a sd, info⟩) ∧
    ((selectedFiles a sd).isEmpty = true →
      previewEntryOpt a sd = none ∨
      ∃ info : StatusInfo, info.status = "missing" ∧
        previewEntryOpt a sd =
          some ⟨subdirPath a sd, [], outputPathFor a sd, info⟩) := by
  cases hmode : a.use_merge_config with
  | false =>
    constructor
    · intro hne
      refine ⟨⟨"pattern",
        if (get_matching_files (subdirPath a sd) sd.entries a.fnMatch
            a.file_pattern).isEmpty then "no_files" else "ready",
        none, none, none⟩, ?_, ?_⟩
      · have : selectedFiles a sd =
            get_matching_files (subdirPath a sd) sd.entries a.fnMatch a.file_pattern := by
          rw [selectedFiles, hmode]
          simp
        rw [this] at hne
        simp only [Bool.not_eq_true] at hne
        simp [hne]
      · rw [previewEntryOpt, hmode]
        have hsel : selectedFiles a sd =
            get_matching_files (subdirPath a sd) sd.entries a.fnMatch a.file_pattern := by
          rw [selectedFiles, hmode]
          simp
        rw [hsel] at hne
        simp only [Bool.not_eq_true] at hne
        simp [hne, hsel]
    · intro hemp
      left
      have hsel : selectedFiles a sd =
          get_matching_files (subdirPath a sd) sd.entries a.fnMatch a.file_pattern := by
        rw [selectedFiles, hmode]
        simp
      rw [hsel] at hemp
      rw [previewEntryOpt, hmode]
      simp [hemp]
  | true =>
    have hsel : selectedFiles a sd =
        (if (find_merge_config_files (subdirPath a sd) sd.entries
              ((get_merge_config a.cwd a.configs a.main_directory).getD [])).1
         then get_ordered_merge_files
            (find_merge_config_files (subdirPath a sd) sd.entries
              ((get_merge_config a.cwd a.configs a.main_directory).getD [])).2.1
            ((get_merge_config a.cwd a.configs a.main_directory).getD [])
         else []) := by
      rw [selectedFiles, hmode]
      simp
    cases hfound : (find_merge_config_files (subdirPath a sd) sd.entries
        ((get_merge_config a.cwd a.configs a.main_directory).getD [])).1 with
    | true =>
      have hsel2 : selectedFiles a sd =
          get_ordered_merge_files
            (find_merge_config_files (subdirPath a sd) sd.entries
              ((get_merge_config a.cwd a.configs a.main_directory).getD [])).2.1
            ((get_merge_config a.cwd a.configs a.main_directory).getD []) := by
        rw [hsel, if_pos hfound]
      constructor
      · intro hne
        refine ⟨⟨"merge_config", "ready",
          some ((get_merge_config a.cwd a.configs a.main_directory).getD []),
          some (find_merge_config_files (subdirPath a sd) sd.entries
            ((get_merge_config a.cwd a.configs a.main_directory).getD [])).2.1,
          none⟩, rfl, ?_⟩
        rw [previewEntryOpt, hmode]
        rw [hsel2] at hne
        simp only [Bool.not_eq_true] at hne
        simp [hfound, hne, hsel2]
      · intro hemp
        left
        rw [hsel2] at hemp
        rw [previewEntryOpt, hmode]
        simp [hfound, hemp]
    | false =>
      have hsel2 : selectedFiles a sd = [] := by
        rw [hsel, if_neg (by simp [hfound])]
      constructor
      · intro hne
        rw [hsel2] at hne
        simp at hne
      · intro _
        right
        refine ⟨⟨"merge_config", "missing",
          some ((get_merge_config a.cwd a.configs a.main_directory).getD []),
          none,
          some (find_merge_config_files (subdirPath a sd) sd.entries
            ((get_merge_config a.cwd a.configs a.main_directory).getD [])).2.2⟩, rfl, ?_⟩
        rw [previewEntryOpt, hmode]
        simp [hfound]

theorem preview_ready_results (a : MergeArgs) (codec : List String → String → Bool) :
    ∀ subdirs : List SubDir,
      (((subdirs.filterMap (previewEntryOpt a)).filter
          (fun e => e.status_info.status == "ready" &&
            codec e.matching_files e.output_path)).map
          (fun e => e.output_path))
        = subdirs.filterMap (fun sd =>
            if ¬ (selectedFiles a sd).isEmpty = true ∧
                codec (selectedFiles a sd) (outputPathFor a sd) = true
            then some (outputPathFor a sd) else none)
  | [] => rfl
  | sd :: sds => by
    have ih := preview_ready_results a codec sds
    set F := (fun sd => if ¬ (selectedFiles a sd).isEmpty = true ∧
        codec (selectedFiles a sd) (outputPathFor a sd) = true
      then some (outputPathFor a sd) else none) with hF
    set Q := (fun e : PreviewEntry => e.status_info.status == "ready" &&
      codec e.matching_files e.output_path) with hQ
    by_cases hempty : (selectedFiles a sd).isEmpty = true
    · have hf : F sd = none := by
        rw [hF]
        with_reducible exact if_neg (fun hc => absurd hempty hc.1)
      rcases (previewEntryOpt_cases a sd).2 hempty with hnone | ⟨info, hst, hpe⟩
      · rw [List.filterMap_cons_none hnone, List.filterMap_cons_none hf]
        exact ih
      · have hpred : ¬ Q ⟨subdirPath a sd, [], outputPathFor a sd, info⟩ = true := by
          rw [hQ]
          with_reducible show ¬ (info.status == "ready" && codec [] (outputPathFor a sd)) = true
          rw [hst]
          simp
        rw [List.filterMap_cons_some hpe, List.filter_cons_of_neg hpred,
          List.filterMap_cons_none hf]
        exact ih
    · obtain ⟨info, hst, hpe⟩ := (previewEntryOpt_cases a sd).1 hempty
      rw [List.filterMap_cons_some hpe]
      by_cases hcodec : codec (selectedFiles a sd) (outputPathFor a sd) = true
      · have hf : F sd = some (outputPathFor a sd) := by
          rw [hF]
          with_reducible exact if_pos ⟨hempty, hcodec⟩
        have hpred : Q ⟨subdirPath a sd, selectedFiles a sd,
            outputPathFor a sd, info⟩ = true := by
          rw [hQ]
          with_reducible show (info.status == "ready" &&
            codec (selectedFiles a sd) (outputPathFor a sd)) = true
          rw [hst, hcodec]
          rfl
        rw [List.filter_cons_of_pos hpred, List.map_cons, List.filterMap_cons_some hf, ih]
      · have hf : F sd = none := by
          rw [hF]
          with_reducible exact if_neg (fun hc => absurd hc.2 hcodec)
        have hcf : codec (selectedFiles a sd) (outputPathFor a sd) = false :=
          Bool.eq_false_iff.mpr hcodec
        have hpred : ¬ Q ⟨subdirPath a sd, selectedFiles a sd,
            outputPathFor a sd, info⟩ = true := by
          rw [hQ]
          with_reducible show ¬ (info.status == "ready" &&
            codec (selectedFiles a sd) (outputPathFor a sd)) = true
          rw [hcf]
          simp
        rw [List.filter_cons_of_neg hpred, List.filterMap_cons_none hf]
        exact ih

theorem preview_ready_trace (a : MergeArgs) :
    ∀ subdirs : List SubDir,
      (((subdirs.filterMap (previewEntryOpt a)).filter
          (fun e => e.status_info.status == "ready")).map
          (fun e => (e.matching_files, e.output_path)))
        = subdirs.filterMap (fun sd =>
            if (selectedFiles a sd).isEmpty = true then none
            else some (selectedFiles a sd, outputPathFor a sd))
  | [] => rfl
  | sd :: sds => by
    have ih := preview_ready_trace a sds
    set G := (fun sd => if (selectedFiles a sd).isEmpty = true then none
      else some (selectedFiles a sd, outputPathFor a sd)) with hG
    set P := (fun e : PreviewEntry => e.status_info.status == "ready") with hP
    by_cases hempty : (selectedFiles a sd).isEmpty = true
    · have hg : G sd = none := by
        rw [hG]
        with_reducible exact if_pos hempty
      rcases (previewEntryOpt_cases a sd).2 hempty with hnone | ⟨info, hst, hpe⟩
      · rw [List.filterMap_cons_none hnone, List.filterMap_cons_none hg]
        exact ih
      · have hpred : ¬ P ⟨subdirPath a sd, [], outputPathFor a sd, info⟩ = true := by
          rw [hP]
          with_reducible show ¬ (info.status == "ready") = true
          rw [hst]
          simp
        rw [List.filterMap_cons_some hpe, List.filter_cons_of_neg hpred,
          List.filterMap_cons_none hg]
        exact ih
    · obtain ⟨info, hst, hpe⟩ := (previewEntryOpt_cases a sd).1 hempty
      have hg : G sd = some (selectedFiles a sd, outputPathFor a sd) := by
        rw [hG]
        with_reducible exact if_neg hempty
      have hpred : P ⟨subdirPath a sd, selectedFiles a sd,
          outputPathFor a sd, info⟩ = true := by
        rw [hP]
        with_reducible show (info.status == "ready") = true
        rw [hst]
        rfl
      rw [List.filterMap_cons_some hpe, List.filter_cons_of_pos hpred, List.map_cons,
        List.filterMap_cons_some hg, ih]

/-- C8 (amended): `preview_merge` runs the same selection and eligibility
logic as `merge_pdfs` without invoking the codec.  Its result is the in-order
list of per-subdirectory entries, where a subdirectory with a nonempty
selection gets a `ready` entry carrying the resolved ordered file list and
the computed would-be output path, and in configuration mode a subdirectory
with missing stems gets a `missing` entry; a subdirectory in which no files
are selected produces no entry at all (its computed `no_files` status is
never surfaced).  Consequently `merge_pdfs` with any codec returns exactly
the output paths of the `ready` preview entries the codec accepts, and its
invocation trace is exactly the `ready` entries' file lists and paths. -/
theorem preview_merge_spec :
    ∀ (a : MergeArgs) (subdirs : List SubDir),
      (a.use_merge_config = true →
        truthy (get_merge_config a.cwd a.configs a.main_directory) = true) →
      preview_merge a true subdirs = .ok (subdirs.filterMap (previewEntryOpt a)) ∧
      ∀ codec : List String → String → Bool,
        merge_pdfs a true subdirs codec =
          .ok ((((subdirs.filterMap (previewEntryOpt a)).filter
                (fun e => e.status_info.status == "ready" &&
                  codec e.matching_files e.output_path)).map
                (fun e => e.output_path)),
              (((subdirs.filterMap (previewEntryOpt a)).filter
                (fun e => e.status_info.status == "ready")).map
                (fun e => (e.matching_files, e.output_path)))) := by
  intro a subdirs hcfg
  have hcond : (a.use_merge_config &&
      !truthy (get_merge_config a.cwd a.configs a.main_directory)) = false := by
    cases hmode : a.use_merge_config with
    | false => rfl
    | true => rw [hcfg hmode]; rfl
  constructor
  · rw [preview_merge]
    simp only [Bool.not_true, Bool.false_eq_true, if_false, hcond]
    rw [preview_foldl a subdirs []]
    rfl
  · intro codec
    rw [merge_pdfs_ok_eq a subdirs codec hcfg,
      preview_ready_results a codec subdirs, preview_ready_trace a subdirs]

/-- Concrete instance of `preview_merge_spec`: a complete subdirectory gets a
`ready` entry with its ordered files and output path, an incomplete one gets
a `missing` entry. -/
theorem preview_merge_spec_witness :
    preview_merge ⟨"/", [("/data", ["intro"])], fun _ n => pyEndsWith n ".pdf", sampleClock,
        "/data", "*.pdf", "{directory}.pdf", true⟩ true
        [⟨"p1", [⟨"intro.pdf", true⟩]⟩, ⟨"p2", []⟩]
      = .ok [⟨"/data/p1", ["/data/p1/intro.pdf"], "/data/p1/p1.pdf",
              ⟨"merge_config", "ready", some ["intro"],
               some [("intro", ["/data/p1/intro.pdf"])], none⟩⟩,
             ⟨"/data/p2", [], "/data/p2/p2.pdf",
              ⟨"merge_config", "missing", some ["intro"], none, some ["intro"]⟩⟩] := by
  have h := (preview_merge_spec
    ⟨"/", [("/data", ["intro"])], fun _ n => pyEndsWith n ".pdf", sampleClock,
      "/data", "*.pdf", "{directory}.pdf", true⟩
    [⟨"p1", [⟨"intro.pdf", true⟩]⟩, ⟨"p2", []⟩]
    (fun _ => by decide)).1
  rw [h]
  rfl

/-- Counterexample to C8 as stated: in pattern mode, a subdirectory in which
no files are selected produces no preview entry at all — the preview of a
main directory whose single enumerated subdirectory is empty is the empty
list, so no entry with status `no_files` is surfaced for it. -/
theorem preview_merge_no_entry_for_empty_subdir :
    preview_merge ⟨"/", [], fun _ n => pyEndsWith n ".pdf", sampleClock, "/data", "*.pdf",
        "{directory}.pdf", false⟩ true [⟨"empty", []⟩]
      = .ok [] ∧
    ¬ ([(⟨"empty", []⟩ : SubDir)] : List SubDir) = [] := by
  constructor
  · rfl
  · simp

end PdfMerger
